import Mathlib

/-!
Verification of the asset-generation pipeline in main.py (playlist → cards,
histogram, box art).  The Python source is shallowly embedded: pure fragments
become Lean functions, Python exceptions become Option/Except-style results,
and file writes become explicit event lists.
-/

set_option autoImplicit false

/-! ## Python primitive semantics -/

/-- Lexicographic comparison of character lists by code point; this is the
order Python uses when comparing strings (as in min or max over a list of
strings). A strict prefix compares less than the longer string. -/
def lexLt : List Char → List Char → Bool
  | _, [] => false
  | [], _ :: _ => true
  | c :: cs, d :: ds =>
    if c.toNat < d.toNat then true
    else if d.toNat < c.toNat then false
    else lexLt cs ds

/-- Python builtin min over a list of strings: none on the empty list
(ValueError), otherwise the leftmost lexicographically smallest element. -/
def pyMin : List String → Option String
  | [] => none
  | x :: xs => some (xs.foldl (fun m y => if lexLt y.data m.data then y else m) x)

/-- Python builtin max over a list of strings: none on the empty list
(ValueError), otherwise the leftmost lexicographically largest element. -/
def pyMax : List String → Option String
  | [] => none
  | x :: xs => some (xs.foldl (fun m y => if lexLt m.data y.data then y else m) x)

/-- ASCII decimal digit test (code points 48..57). -/
def isDigitChar (c : Char) : Bool := 48 ≤ c.toNat && c.toNat ≤ 57

/-- All characters are ASCII decimal digits. -/
def allDigits (cs : List Char) : Bool := cs.all isDigitChar

/-- Value of a most-significant-first decimal digit string. -/
def digitsVal : List Char → Nat
  | [] => 0
  | c :: cs => (c.toNat - 48) * 10 ^ cs.length + digitsVal cs

/-- Python int(s) on a string: an optional single sign followed by a nonempty
run of decimal digits parses to the signed value, anything else raises
ValueError (modelled as none).  Python additionally tolerates surrounding
whitespace and interior underscores; those inputs are outside the forms this
development needs and are conservatively mapped to none. -/
def pyIntOfString? (s : String) : Option Int :=
  match s.data with
  | [] => none
  | c :: rest =>
    if c = '-' then
      if allDigits rest && !rest.isEmpty then some (-(digitsVal rest : Int)) else none
    else if c = '+' then
      if allDigits rest && !rest.isEmpty then some ((digitsVal rest : Int)) else none
    else if allDigits (c :: rest) then some ((digitsVal (c :: rest) : Int)) else none

/-- Fuel-driven body of pyRange (the fuel makes the recursion structural). -/
def pyRangeAux : Nat → Int → Int → Int → List Int
  | 0, _, _, _ => []
  | fuel + 1, a, b, s => if a < b then a :: pyRangeAux fuel (a + s) b s else []

/-- Python range(a, b, s) for a positive step s: the values a, a + s, ...
strictly below b.  (The source only ever uses positive steps; a
non-positive step yields [] here.) -/
def pyRange (a b s : Int) : List Int :=
  if 0 < s then pyRangeAux (b - a).toNat a b s else []

/-- Python list element increment cs[i] += 1 with negative-index wrapping:
an index i < 0 addresses position i + len(cs); a final index outside
[0, len(cs)) raises IndexError (modelled as none). -/
def incrAt? (counts : List Nat) (i : Int) : Option (List Nat) :=
  let j : Int := if i < 0 then i + counts.length else i
  if 0 ≤ j ∧ j < (counts.length : Int) then
    some (counts.set j.toNat (counts.getD j.toNat 0 + 1))
  else none

/-- Fuel-driven most-significant-first decimal digit rendering of a Nat. -/
def decDigitsAux : Nat → Nat → List Char
  | 0, _ => []
  | fuel + 1, n =>
    if n < 10 then [Char.ofNat (48 + n)]
    else decDigitsAux fuel (n / 10) ++ [Char.ofNat (48 + n % 10)]

/-- Decimal digit rendering of a Nat (Python str of a nonnegative int). -/
def decDigits (n : Nat) : List Char := decDigitsAux (n + 1) n

/-- Python format spec 05d: decimal rendering left-padded with zeros to
width 5 (wider numbers are rendered in full). -/
def pad5 (i : Nat) : String :=
  let ds := decDigits i
  String.mk (List.replicate (5 - ds.length) '0' ++ ds)

/-! ## Data model (main.py playlist dictionaries) -/

/-- A track record as produced by map_spotify_track: display name, track url,
release-year string (first four characters of the release date), and the
comma-joined artist names. -/
structure Track where
  name : String
  url : String
  year : String
  artists : String
  deriving DecidableEq, Inhabited

/-- A playlist record: display name and ordered track list. -/
structure Playlist where
  name : String
  tracks : List Track
  deriving DecidableEq, Inhabited

/-! ## Rendering constants (main.py lines 21-31, 108, 121) -/

def CARD_W : Nat := 1000
def CARD_WH : Nat := CARD_W / 2
def CARD_W6 : Nat := CARD_W / 6
def FONT_SIZE : Nat := 32
def LARGE_FONT_SIZE : Nat := 112
def BG : String := "#E81828"
def FG : String := "#fff"
def QR_W : Nat := 700
def TEXT_MARGIN : Nat := 100

/-! ## Histogram generator (main.py generate_histogram) -/

/-- The data of the bar chart generate_histogram renders: title (playlist
name), x-axis labels, and per-label counts. -/
structure Hist where
  title : String
  labels : List Int
  counts : List Nat
  deriving DecidableEq, Inhabited

/-- generate_histogram from main.py: years = the tracks' year strings;
a = int(min(years)); b = int(max(years)); counts = [0]*(b-a+1);
labels = [i+a for i in range(b-a+1)]; for each year,
counts[int(year)-a] += 1; then the chart is drawn and saved.  Any raised
exception (empty min/max, unparseable int, list index out of range) is
none, and none means no file was written since savefig is the last
statement. -/
def generate_histogram (p : Playlist) : Option Hist :=
  let years := p.tracks.map fun t => t.year
  (pyMin years).bind fun mn =>
  (pyIntOfString? mn).bind fun a =>
  (pyMax years).bind fun mx =>
  (pyIntOfString? mx).bind fun b =>
  let size := (b - a + 1).toNat
  let counts0 : List Nat := List.replicate size 0
  let labels := (List.range size).map fun (i : Nat) => (i : Int) + a
  (years.foldlM (fun cs y => (pyIntOfString? y).bind fun v => incrAt? cs (v - a)) counts0).map
    fun counts => { title := p.name, labels := labels, counts := counts }

/-- Files written by generate_histogram: plt.savefig is its only write and
the final statement of the function, so a run that raises writes nothing. -/
def generate_histogram_files (p : Playlist) : List String :=
  match generate_histogram p with
  | some _ => ["hist.png"]
  | none => []

/-! ## Card generator (main.py generate_cards) -/

/-- The two fonts loaded at module scope: FONT (body, size 32) and
LARGE_FONT (size 112), both Arial Black. -/
inductive FontKind where
  | body
  | large
  deriving DecidableEq, Inhabited

/-- One ImageDraw.text call: position, text, font, fill color, anchor mode
("mm" = the position is the geometric middle of the text's bounding box,
"la" = PIL's default left-ascender anchor), and align mode. -/
structure TextDraw where
  pos : Int × Int
  text : String
  font : FontKind
  fill : String
  anchor : String
  align : String
  deriving DecidableEq, Inhabited

/-- A back card: an RGB canvas of side canvas filled with bg, onto which the
QR code of qrUrl, resized to qrSize × qrSize, is pasted at pastePos. -/
structure BackImage where
  canvas : Nat
  bg : String
  qrUrl : String
  qrSize : Nat
  pastePos : Int × Int
  deriving DecidableEq, Inhabited

/-- A front card: an RGB canvas of side canvas filled with bg carrying the
listed text draws. -/
structure FrontImage where
  canvas : Nat
  bg : String
  draws : List TextDraw
  deriving DecidableEq, Inhabited

/-- Back-card rendering for one track (main.py lines 111-114): QR code of the
track url resized to QR_W, pasted on a CARD_W square BG canvas at
(CARD_WH - QR_W // 2, CARD_WH - QR_W // 2). -/
def back_image (t : Track) : BackImage :=
  { canvas := CARD_W, bg := BG, qrUrl := t.url, qrSize := QR_W,
    pastePos := (((CARD_WH - QR_W / 2 : Nat) : Int), ((CARD_WH - QR_W / 2 : Nat) : Int)) }

/-- Front-card rendering for one track (main.py lines 128-132): the year in
the large font at (CARD_WH, CARD_WH), the artists in the body font at
(CARD_WH, CARD_W6), and the track name in the body font at
(CARD_WH, 5*CARD_W6), all anchor "mm" and centered.  (The if False debug
rectangles on lines 144-148 are dead code and add nothing.) -/
def front_image (t : Track) : FrontImage :=
  { canvas := CARD_W, bg := BG,
    draws := [
      { pos := ((CARD_WH : Int), (CARD_WH : Int)), text := t.year, font := FontKind.large,
        fill := FG, anchor := "mm", align := "center" },
      { pos := ((CARD_WH : Int), (CARD_W6 : Int)), text := t.artists, font := FontKind.body,
        fill := FG, anchor := "mm", align := "center" },
      { pos := ((CARD_WH : Int), ((5 * CARD_W6 : Nat) : Int)), text := t.name,
        font := FontKind.body, fill := FG, anchor := "mm", align := "center" }] }

/-- Overflow warnings logged for one front card (main.py lines 134-142).
w font s models the rendered bounding-box width bbox[2] - bbox[0] of
draw.textbbox((0,0), s, font).  A warning (field identifier, field value)
is logged exactly when that width is at least CARD_W - TEXT_MARGIN, in
source order: year (large font), artists, name (body font). -/
def front_warnings (w : FontKind → String → Nat) (t : Track) : List (String × String) :=
  (if CARD_W - TEXT_MARGIN ≤ w FontKind.large t.year then [("year", t.year)] else []) ++
  (if CARD_W - TEXT_MARGIN ≤ w FontKind.body t.artists then [("artists", t.artists)] else []) ++
  (if CARD_W - TEXT_MARGIN ≤ w FontKind.body t.name then [("name", t.name)] else [])

/-- Content of a file written by generate_cards. -/
inductive CardContent where
  | back (img : BackImage)
  | front (img : FrontImage)
  deriving DecidableEq

instance : Inhabited CardContent := ⟨CardContent.back default⟩

/-- Whether a card file is a back image. -/
def CardContent.isBack : CardContent → Bool
  | CardContent.back _ => true
  | CardContent.front _ => false

/-- One file written by generate_cards: path relative to the output
directory, plus the rendered content. -/
structure FileWrite where
  path : String
  content : CardContent
  deriving DecidableEq, Inhabited

/-- The failure raised by generate_cards: os.makedirs without exist_ok
raises FileExistsError when the directory already exists. -/
inductive CardsError where
  | backsExist
  | frontsExist
  deriving DecidableEq

/-- generate_cards from main.py.  backsPre / frontsPre say whether the
"backs" / "fronts" subdirectory of the output target already exists when the
call starts.  The source first calls os.makedirs on backs (raising if it
pre-exists), then saves every back image, then calls os.makedirs on fronts
(raising if it pre-exists), then draws, checks and saves every front image.
Result: the file writes performed in order, the overflow warnings logged,
and the error that aborted the run (if any). -/
def generate_cards (w : FontKind → String → Nat) (backsPre frontsPre : Bool)
    (p : Playlist) : List FileWrite × List (String × String) × Option CardsError :=
  if backsPre then ([], [], some CardsError.backsExist)
  else
    let backWrites := p.tracks.enum.map fun it =>
      { path := "backs/back_" ++ pad5 it.1 ++ ".png",
        content := CardContent.back (back_image it.2) : FileWrite }
    if frontsPre then (backWrites, [], some CardsError.frontsExist)
    else
      let frontWrites := p.tracks.enum.map fun it =>
        { path := "fronts/front_" ++ pad5 it.1 ++ ".png",
          content := CardContent.front (front_image it.2) : FileWrite }
      (backWrites ++ frontWrites, p.tracks.flatMap fun t => front_warnings w t, none)

/-! ## Box generator (main.py generate_box) -/

/-- The single image generate_box renders and saves as box.png. -/
structure BoxOutput where
  canvas : Nat
  bg : String
  draws : List TextDraw
  file : String
  deriving DecidableEq, Inhabited

/-- generate_box from main.py.  lenOf models
math.ceil(draw.textlength(name, font=FONT)), the rendered pixel width of a
string in the body font rounded up; z = int(FONT_SIZE * 1.5) = 48 (written
FONT_SIZE * 3 / 2, which agrees with Python's float truncation here).  For
y in range(-CARD_W, CARD_W*2, z) and x in range(-CARD_W, CARD_W*2,
length+z), the playlist name is drawn at (x + y, y) in the body font
(PIL's default anchor "la", align "left"); the canvas is saved as
box.png. -/
def generate_box (lenOf : String → Nat) (p : Playlist) : BoxOutput :=
  let name := p.name
  let length := lenOf name
  let z : Nat := FONT_SIZE * 3 / 2
  { canvas := CARD_W, bg := BG,
    draws := (pyRange (-(CARD_W : Int)) ((CARD_W : Int) * 2) (z : Int)).flatMap fun y =>
      (pyRange (-(CARD_W : Int)) ((CARD_W : Int) * 2) ((length : Int) + (z : Int))).map fun x =>
        { pos := (x + y, y), text := name, font := FontKind.body,
          fill := FG, anchor := "la", align := "left" },
    file := "box.png" }

/-! ## Concrete fixtures used by counterexamples and witnesses -/

/-- A representative track. -/
def sampleTrack : Track := ⟨"Song Title", "https://example/track", "1999", "Artist"⟩

/-- A one-track playlist. -/
def samplePlaylistOne : Playlist := ⟨"P", [sampleTrack]⟩

/-- The spec's histogram scenario: years 1999, 2001, 1999. -/
def scenarioPlaylist : Playlist :=
  ⟨"Test", [⟨"A", "u1", "1999", "X"⟩, ⟨"B", "u2", "2001", "Y"⟩, ⟨"C", "u3", "1999", "Z"⟩]⟩

/-- Two tracks whose years parse as the integers 99 and 100 but whose
string minimum is "100" and string maximum is "99". -/
def lexMismatchPlaylist : Playlist := ⟨"P", [⟨"A", "u1", "99", "X"⟩, ⟨"B", "u2", "100", "Y"⟩]⟩

/-- Three tracks whose years parse as 30, 4 and 50: the string minimum is
"30", so the bin index of "4" is negative. -/
def negIndexPlaylist : Playlist :=
  ⟨"Q", [⟨"A", "u1", "30", "X"⟩, ⟨"B", "u2", "4", "Y"⟩, ⟨"C", "u3", "50", "Z"⟩]⟩

/-! ## Digit-string lemmas -/

lemma isDigitChar_bounds (c : Char) (h : isDigitChar c = true) :
    48 ≤ c.toNat ∧ c.toNat ≤ 57 := by
  simpa [isDigitChar, Bool.and_eq_true, decide_eq_true_eq] using h

lemma allDigits_cons {c : Char} {cs : List Char} :
    allDigits (c :: cs) = true ↔ isDigitChar c = true ∧ allDigits cs = true := by
  simp [allDigits, List.all_cons]

lemma digitsVal_lt (cs : List Char) (h : allDigits cs = true) :
    digitsVal cs < 10 ^ cs.length := by
  induction cs with
  | nil => simp [digitsVal]
  | cons c cs ih =>
    obtain ⟨h1, h2⟩ := allDigits_cons.mp h
    obtain ⟨hc48, hc57⟩ := isDigitChar_bounds c h1
    have hv := ih h2
    simp only [digitsVal, List.length_cons, pow_succ]
    calc (c.toNat - 48) * 10 ^ cs.length + digitsVal cs
        < (c.toNat - 48) * 10 ^ cs.length + 10 ^ cs.length := Nat.add_lt_add_left hv _
      _ = (c.toNat - 48 + 1) * 10 ^ cs.length := by ring
      _ ≤ 10 * 10 ^ cs.length := Nat.mul_le_mul_right _ (by omega)
      _ = 10 ^ cs.length * 10 := by ring

/-- On equal-length all-digit strings, Python's lexicographic string order
agrees with the numeric order of the parsed values. -/
lemma lexLt_iff_val : ∀ (cs ds : List Char), allDigits cs = true → allDigits ds = true →
    cs.length = ds.length → (lexLt cs ds = true ↔ digitsVal cs < digitsVal ds) := by
  intro cs
  induction cs with
  | nil =>
    intro ds hc hd hlen
    cases ds with
    | nil => simp [lexLt, digitsVal]
    | cons d ds => simp at hlen
  | cons c cs ih =>
    intro ds hc hd hlen
    cases ds with
    | nil => simp at hlen
    | cons d ds =>
      obtain ⟨hc1, hc2⟩ := allDigits_cons.mp hc
      obtain ⟨hd1, hd2⟩ := allDigits_cons.mp hd
      obtain ⟨hc48, hc57⟩ := isDigitChar_bounds c hc1
      obtain ⟨hd48, hd57⟩ := isDigitChar_bounds d hd1
      have hlen2 : cs.length = ds.length := by simpa using hlen
      have hvc := digitsVal_lt cs hc2
      have hvd := digitsVal_lt ds hd2
      simp only [lexLt]
      by_cases h1 : c.toNat < d.toNat
      · simp only [if_pos h1]
        refine iff_of_true trivial ?_
        simp only [digitsVal, hlen2]
        calc (c.toNat - 48) * 10 ^ ds.length + digitsVal cs
            < (c.toNat - 48) * 10 ^ ds.length + 10 ^ ds.length :=
              Nat.add_lt_add_left (hlen2 ▸ hvc) _
          _ = (c.toNat - 48 + 1) * 10 ^ ds.length := by ring
          _ ≤ (d.toNat - 48) * 10 ^ ds.length := Nat.mul_le_mul_right _ (by omega)
          _ ≤ (d.toNat - 48) * 10 ^ ds.length + digitsVal ds := Nat.le_add_right _ _
      · by_cases h2 : d.toNat < c.toNat
        · simp only [if_neg h1, if_pos h2]
          have hgt : digitsVal (d :: ds) < digitsVal (c :: cs) := by
            simp only [digitsVal, hlen2]
            calc (d.toNat - 48) * 10 ^ ds.length + digitsVal ds
                < (d.toNat - 48) * 10 ^ ds.length + 10 ^ ds.length :=
                  Nat.add_lt_add_left hvd _
              _ = (d.toNat - 48 + 1) * 10 ^ ds.length := by ring
              _ ≤ (c.toNat - 48) * 10 ^ ds.length := Nat.mul_le_mul_right _ (by omega)
              _ ≤ (c.toNat - 48) * 10 ^ ds.length + digitsVal cs := Nat.le_add_right _ _
          exact iff_of_false (by simp) (by omega)
        · have he : c.toNat = d.toNat := by omega
          simp only [if_neg h1, if_neg h2]
          simp only [digitsVal, hlen2, he, Nat.add_lt_add_iff_left]
          exact ih ds hc2 hd2 hlen2

lemma lexLt_false_le (cs ds : List Char) (hc : allDigits cs = true) (hd : allDigits ds = true)
    (hlen : cs.length = ds.length) (h : lexLt cs ds = false) :
    digitsVal ds ≤ digitsVal cs := by
  have := lexLt_iff_val cs ds hc hd hlen
  rw [h] at this
  have hnot : ¬ digitsVal cs < digitsVal ds := by
    intro hx
    exact absurd (this.mpr hx) (by simp)
  omega

/-! ## Python min / max over digit strings -/

lemma pyMinFoldSpec (k : Nat) :
    ∀ (xs : List String) (x : String),
      allDigits x.data = true → x.data.length = k →
      (∀ y ∈ xs, allDigits y.data = true ∧ y.data.length = k) →
      ∃ m, xs.foldl (fun m y => if lexLt y.data m.data then y else m) x = m ∧
        (m = x ∨ m ∈ xs) ∧ allDigits m.data = true ∧ m.data.length = k ∧
        digitsVal m.data ≤ digitsVal x.data ∧
        ∀ y ∈ xs, digitsVal m.data ≤ digitsVal y.data := by
  intro xs
  induction xs with
  | nil =>
    intro x hx hxk _
    exact ⟨x, rfl, Or.inl rfl, hx, hxk, le_refl _, by simp⟩
  | cons y ys ih =>
    intro x hx hxk hall
    obtain ⟨hy, hyk⟩ := hall y (List.mem_cons_self _ _)
    have hys : ∀ z ∈ ys, allDigits z.data = true ∧ z.data.length = k :=
      fun z hz => hall z (List.mem_cons_of_mem _ hz)
    rw [List.foldl_cons]
    by_cases hlt : lexLt y.data x.data = true
    · rw [if_pos hlt]
      have hyx : digitsVal y.data < digitsVal x.data :=
        (lexLt_iff_val y.data x.data hy hx (by omega)).mp hlt
      obtain ⟨m, hfold, hmem, hmd, hmk, hmy, hmall⟩ := ih y hy hyk hys
      refine ⟨m, hfold, ?_, hmd, hmk, ?_, ?_⟩
      · rcases hmem with h | h
        · exact Or.inr (h ▸ List.mem_cons_self _ _)
        · exact Or.inr (List.mem_cons_of_mem _ h)
      · omega
      · intro z hz
        rcases List.mem_cons.mp hz with h | h
        · exact h ▸ hmy
        · exact hmall z h
    · rw [if_neg hlt]
      have hxy : digitsVal x.data ≤ digitsVal y.data :=
        lexLt_false_le y.data x.data hy hx (by omega) (by
          cases h : lexLt y.data x.data with
          | false => rfl
          | true => exact absurd h hlt)
      obtain ⟨m, hfold, hmem, hmd, hmk, hmx, hmall⟩ := ih x hx hxk hys
      refine ⟨m, hfold, ?_, hmd, hmk, hmx, ?_⟩
      · rcases hmem with h | h
        · exact Or.inl h
        · exact Or.inr (List.mem_cons_of_mem _ h)
      · intro z hz
        rcases List.mem_cons.mp hz with h | h
        · subst h; omega
        · exact hmall z h

lemma pyMaxFoldSpec (k : Nat) :
    ∀ (xs : List String) (x : String),
      allDigits x.data = true → x.data.length = k →
      (∀ y ∈ xs, allDigits y.data = true ∧ y.data.length = k) →
      ∃ m, xs.foldl (fun m y => if lexLt m.data y.data then y else m) x = m ∧
        (m = x ∨ m ∈ xs) ∧ allDigits m.data = true ∧ m.data.length = k ∧
        digitsVal x.data ≤ digitsVal m.data ∧
        ∀ y ∈ xs, digitsVal y.data ≤ digitsVal m.data := by
  intro xs
  induction xs with
  | nil =>
    intro x hx hxk _
    exact ⟨x, rfl, Or.inl rfl, hx, hxk, le_refl _, by simp⟩
  | cons y ys ih =>
    intro x hx hxk hall
    obtain ⟨hy, hyk⟩ := hall y (List.mem_cons_self _ _)
    have hys : ∀ z ∈ ys, allDigits z.data = true ∧ z.data.length = k :=
      fun z hz => hall z (List.mem_cons_of_mem _ hz)
    rw [List.foldl_cons]
    by_cases hlt : lexLt x.data y.data = true
    · rw [if_pos hlt]
      have hxy : digitsVal x.data < digitsVal y.data :=
        (lexLt_iff_val x.data y.data hx hy (by omega)).mp hlt
      obtain ⟨m, hfold, hmem, hmd, hmk, hmy, hmall⟩ := ih y hy hyk hys
      refine ⟨m, hfold, ?_, hmd, hmk, ?_, ?_⟩
      · rcases hmem with h | h
        · exact Or.inr (h ▸ List.mem_cons_self _ _)
        · exact Or.inr (List.mem_cons_of_mem _ h)
      · omega
      · intro z hz
        rcases List.mem_cons.mp hz with h | h
        · exact h ▸ hmy
        · exact hmall z h
    · rw [if_neg hlt]
      have hyx : digitsVal y.data ≤ digitsVal x.data :=
        lexLt_false_le x.data y.data hx hy (by omega) (by
          cases h : lexLt x.data y.data with
          | false => rfl
          | true => exact absurd h hlt)
      obtain ⟨m, hfold, hmem, hmd, hmk, hmx, hmall⟩ := ih x hx hxk hys
      refine ⟨m, hfold, ?_, hmd, hmk, hmx, ?_⟩
      · rcases hmem with h | h
        · exact Or.inl h
        · exact Or.inr (List.mem_cons_of_mem _ h)
      · intro z hz
        rcases List.mem_cons.mp hz with h | h
        · subst h; omega
        · exact hmall z h

lemma pyMin_spec (k : Nat) (x : String) (xs : List String)
    (hall : ∀ y ∈ x :: xs, allDigits y.data = true ∧ y.data.length = k) :
    ∃ m, pyMin (x :: xs) = some m ∧ m ∈ x :: xs ∧ allDigits m.data = true ∧
      m.data.length = k ∧ ∀ y ∈ x :: xs, digitsVal m.data ≤ digitsVal y.data := by
  obtain ⟨hx, hxk⟩ := hall x (List.mem_cons_self _ _)
  have hxs : ∀ y ∈ xs, allDigits y.data = true ∧ y.data.length = k :=
    fun y hy => hall y (List.mem_cons_of_mem _ hy)
  obtain ⟨m, hfold, hmem, hmd, hmk, hmx, hmall⟩ := pyMinFoldSpec k xs x hx hxk hxs
  refine ⟨m, ?_, ?_, hmd, hmk, ?_⟩
  · simp only [pyMin, hfold]
  · rcases hmem with h | h
    · exact h ▸ List.mem_cons_self _ _
    · exact List.mem_cons_of_mem _ h
  · intro y hy
    rcases List.mem_cons.mp hy with h | h
    · exact h ▸ hmx
    · exact hmall y h

lemma pyMax_spec (k : Nat) (x : String) (xs : List String)
    (hall : ∀ y ∈ x :: xs, allDigits y.data = true ∧ y.data.length = k) :
    ∃ m, pyMax (x :: xs) = some m ∧ m ∈ x :: xs ∧ allDigits m.data = true ∧
      m.data.length = k ∧ ∀ y ∈ x :: xs, digitsVal y.data ≤ digitsVal m.data := by
  obtain ⟨hx, hxk⟩ := hall x (List.mem_cons_self _ _)
  have hxs : ∀ y ∈ xs, allDigits y.data = true ∧ y.data.length = k :=
    fun y hy => hall y (List.mem_cons_of_mem _ hy)
  obtain ⟨m, hfold, hmem, hmd, hmk, hmx, hmall⟩ := pyMaxFoldSpec k xs x hx hxk hxs
  refine ⟨m, ?_, ?_, hmd, hmk, ?_⟩
  · simp only [pyMax, hfold]
  · rcases hmem with h | h
    · exact h ▸ List.mem_cons_self _ _
    · exact List.mem_cons_of_mem _ h
  · intro y hy
    rcases List.mem_cons.mp hy with h | h
    · exact h ▸ hmx
    · exact hmall y h

/-- int() on a nonempty all-digit string parses to its decimal value. -/
lemma pyInt_digits (s : String) (h : allDigits s.data = true) (hne : s.data ≠ []) :
    pyIntOfString? s = some ((digitsVal s.data : Nat) : Int) := by
  rcases hcs : s.data with _ | ⟨c, cs⟩
  · exact absurd hcs hne
  · rw [hcs] at h
    obtain ⟨h1, h2⟩ := allDigits_cons.mp h
    have hcm : c ≠ '-' := by
      intro he
      rw [he] at h1
      simp [isDigitChar] at h1
    have hcp : c ≠ '+' := by
      intro he
      rw [he] at h1
      simp [isDigitChar] at h1
    simp only [pyIntOfString?, hcs, if_neg hcm, if_neg hcp, if_pos h]

/-! ## List update helpers -/

lemma listGetD_set_self (l : List Nat) (i x : Nat) (h : i < l.length) :
    (l.set i x).getD i 0 = x := by
  induction l generalizing i with
  | nil => simp at h
  | cons a l ih =>
    cases i with
    | zero => simp
    | succ i => simpa using ih i (by simpa using h)

lemma listGetD_set_ne (l : List Nat) (i j x : Nat) (h : i ≠ j) :
    (l.set i x).getD j 0 = l.getD j 0 := by
  induction l generalizing i j with
  | nil => simp
  | cons a l ih =>
    cases i with
    | zero =>
      cases j with
      | zero => exact absurd rfl h
      | succ j => simp
    | succ i =>
      cases j with
      | zero => simp
      | succ j => simpa using ih i j (by omega)

lemma listSum_set_incr (l : List Nat) (i : Nat) (h : i < l.length) :
    (l.set i (l.getD i 0 + 1)).sum = l.sum + 1 := by
  induction l generalizing i with
  | nil => simp at h
  | cons a l ih =>
    cases i with
    | zero =>
      simp only [List.getD_cons_zero, List.set_cons_zero, List.sum_cons]
      omega
    | succ i =>
      have hi := ih i (by simpa using h)
      simp only [List.getD_cons_succ, List.set_cons_succ, List.sum_cons]
      omega

lemma listGetD_replicate_zero (n j : Nat) : (List.replicate n (0 : Nat)).getD j 0 = 0 := by
  induction n generalizing j with
  | zero => simp
  | succ n ih =>
    cases j with
    | zero => simp [List.replicate_succ]
    | succ j => simp [List.replicate_succ, ih]

/-! ## The histogram counting loop -/

lemma incrAt?_nonneg (counts : List Nat) (i : Int) (h0 : 0 ≤ i)
    (hlt : i < (counts.length : Int)) :
    incrAt? counts i = some (counts.set i.toNat (counts.getD i.toNat 0 + 1)) := by
  simp only [incrAt?]
  rw [if_neg (show ¬ i < 0 by omega)]
  rw [if_pos ⟨h0, hlt⟩]

/-- Invariant of the counts[int(year)-a] += 1 loop: when every year parses
and yields an in-range index, the loop succeeds, preserves the list length,
adds one per element to the total, and ends with each cell holding its
initial value plus the number of years parsing to a + cell index. -/
lemma hist_fold_spec (a : Int) :
    ∀ (ys : List String) (counts : List Nat),
      (∀ y ∈ ys, ∃ v : Int, pyIntOfString? y = some v ∧ 0 ≤ v - a ∧
        v - a < (counts.length : Int)) →
      ∃ counts2,
        ys.foldlM (fun cs y => (pyIntOfString? y).bind fun v => incrAt? cs (v - a)) counts
          = some counts2 ∧
        counts2.length = counts.length ∧
        counts2.sum = counts.sum + ys.length ∧
        ∀ j : Nat, counts2.getD j 0
          = counts.getD j 0 + ys.countP (fun y => pyIntOfString? y == some (a + (j : Int))) := by
  intro ys
  induction ys with
  | nil =>
    intro counts _
    exact ⟨counts, rfl, rfl, by simp, by intro j; simp⟩
  | cons y ys ih =>
    intro counts h
    obtain ⟨v, hv, h0, hlt⟩ := h y (List.mem_cons_self _ _)
    have hidx : (v - a).toNat < counts.length := by omega
    have hstep := incrAt?_nonneg counts (v - a) h0 hlt
    set idx := (v - a).toNat with hidxdef
    set counts1 := counts.set idx (counts.getD idx 0 + 1) with hc1
    have hlen1 : counts1.length = counts.length := by
      rw [hc1, List.length_set]
    have h2 : ∀ z ∈ ys, ∃ w : Int, pyIntOfString? z = some w ∧ 0 ≤ w - a ∧
        w - a < (counts1.length : Int) := by
      intro z hz
      obtain ⟨w, hw, hw0, hwlt⟩ := h z (List.mem_cons_of_mem _ hz)
      refine ⟨w, hw, hw0, ?_⟩
      rw [hlen1]
      exact hwlt
    obtain ⟨counts2, hfold, hlen2, hsum2, hpt2⟩ := ih counts1 h2
    refine ⟨counts2, ?_, ?_, ?_, ?_⟩
    · rw [List.foldlM_cons, hv]
      show (incrAt? counts (v - a)).bind _ = some counts2
      rw [hstep]
      exact hfold
    · rw [hlen2, hlen1]
    · rw [hsum2, hc1, listSum_set_incr counts idx hidx]
      simp only [List.length_cons]
      omega
    · intro j
      rw [hpt2 j, List.countP_cons]
      by_cases hj : idx = j
      · subst hj
        have hpy : (pyIntOfString? y == some (a + (idx : Int))) = true := by
          rw [hv]
          have : a + (idx : Int) = v := by omega
          rw [this]
          exact beq_self_eq_true _
        rw [if_pos hpy, hc1, listGetD_set_self counts idx _ hidx]
        omega
      · have hpy : (pyIntOfString? y == some (a + (j : Int))) = false := by
          rw [hv]
          have : some v ≠ some (a + (j : Int)) := by
            intro he
            have : v = a + (j : Int) := Option.some.inj he
            omega
          exact beq_eq_false_iff_ne.mpr this
        rw [if_neg (by simp [hpy]), hc1, listGetD_set_ne counts idx j _ hj]
        omega

/-! ## pyRange membership -/

lemma pyRangeAux_mem : ∀ (fuel : Nat) (a b s v : Int), 0 < s → (b - a).toNat ≤ fuel →
    (v ∈ pyRangeAux fuel a b s ↔ a ≤ v ∧ v < b ∧ s ∣ (v - a)) := by
  intro fuel
  induction fuel with
  | zero =>
    intro a b s v hs hfuel
    simp only [pyRangeAux, List.not_mem_nil, false_iff]
    rintro ⟨h1, h2, -⟩
    omega
  | succ fuel ih =>
    intro a b s v hs hfuel
    simp only [pyRangeAux]
    by_cases hab : a < b
    · rw [if_pos hab]
      have hrec := ih (a + s) b s v hs (by omega)
      simp only [List.mem_cons, hrec]
      constructor
      · rintro (rfl | ⟨h1, h2, h3⟩)
        · exact ⟨le_refl _, hab, by simp⟩
        · refine ⟨by omega, h2, ?_⟩
          have he : v - a = (v - (a + s)) + s := by ring
          rw [he]
          exact dvd_add h3 (dvd_refl s)
      · rintro ⟨h1, h2, h3⟩
        by_cases hva : v = a
        · exact Or.inl hva
        · right
          have hpos : 0 < v - a := by omega
          have hsle : s ≤ v - a := Int.le_of_dvd hpos h3
          refine ⟨by omega, h2, ?_⟩
          have he : v - (a + s) = (v - a) - s := by ring
          rw [he]
          exact dvd_sub h3 (dvd_refl s)
    · rw [if_neg hab]
      simp only [List.not_mem_nil, false_iff]
      rintro ⟨h1, h2, -⟩
      omega

lemma pyRange_mem (a b s v : Int) (hs : 0 < s) :
    v ∈ pyRange a b s ↔ a ≤ v ∧ v < b ∧ s ∣ (v - a) := by
  rw [pyRange, if_pos hs]
  exact pyRangeAux_mem _ a b s v hs (le_refl _)

/-! ## pad5 renders five characters below 100000 -/

lemma decDigitsAux_length : ∀ (fuel n k : Nat), n < fuel → n < 10 ^ k → 1 ≤ k →
    (decDigitsAux fuel n).length ≤ k := by
  intro fuel
  induction fuel with
  | zero =>
    intro n k h1 _ _
    omega
  | succ fuel ih =>
    intro n k hn hnk hk
    simp only [decDigitsAux]
    by_cases h10 : n < 10
    · rw [if_pos h10]
      simpa using hk
    · rw [if_neg h10]
      have hk2 : 2 ≤ k := by
        by_contra hcon
        have hk1 : k = 1 := by omega
        rw [hk1] at hnk
        norm_num at hnk
        omega
      have hrec : (decDigitsAux fuel (n / 10)).length ≤ k - 1 := by
        apply ih
        · omega
        · have hdiv : n / 10 < 10 ^ (k - 1) ↔ n < 10 ^ (k - 1) * 10 :=
            Nat.div_lt_iff_lt_mul (by norm_num)
          rw [hdiv]
          have hpow : 10 ^ (k - 1) * 10 = 10 ^ k := by
            rw [← pow_succ]
            congr 1
            omega
          omega
        · omega
      simp only [List.length_append, List.length_cons, List.length_nil]
      omega

lemma decDigits_length_pos (n : Nat) : 1 ≤ (decDigits n).length := by
  rw [decDigits]
  simp only [decDigitsAux]
  by_cases h10 : n < 10
  · rw [if_pos h10]
    simp
  · rw [if_neg h10]
    simp

lemma pad5_length (i : Nat) (h : i < 100000) : (pad5 i).length = 5 := by
  have h5 : (decDigits i).length ≤ 5 := by
    apply decDigitsAux_length (i + 1) i 5 (by omega)
    · norm_num
      omega
    · omega
  have h1 := decDigits_length_pos i
  simp only [pad5, String.length_mk, List.length_append, List.length_replicate]
  omega

lemma mem_ite_singleton {α : Type} (c : Prop) [Decidable c] (x y : α) :
    x ∈ (if c then [y] else []) ↔ c ∧ x = y := by
  by_cases h : c <;> simp [h]

/-! ## Claim theorems -/

/-- C4: generate_histogram on a playlist with an empty track list fails (min
of the empty year sequence raises ValueError before any drawing), writes no
file, and in particular does not produce an empty chart. -/
theorem generate_histogram_empty_fails (name : String) :
    generate_histogram ⟨name, []⟩ = none ∧ generate_histogram_files ⟨name, []⟩ = [] :=
  ⟨rfl, rfl⟩

/-- C9: each back card is a CARD_W-square canvas filled with the background
color, carrying the QR code of the track's url resized to QR_W = 700 =
0.7 × 1000, pasted with both axes offset by CARD_W/2 - QR_W/2 = 150. -/
theorem back_image_spec (t : Track) :
    back_image t = { canvas := CARD_W, bg := BG, qrUrl := t.url, qrSize := QR_W,
                     pastePos := (150, 150) } ∧
    10 * QR_W = 7 * CARD_W ∧
    (150 : Int) = ((CARD_W / 2 - QR_W / 2 : Nat) : Int) ∧
    CARD_W = 1000 ∧ QR_W = 700 :=
  ⟨rfl, rfl, rfl, rfl, rfl⟩

/-- C8: generate_box is deterministic — two runs on the same playlist name
with the same rendered text width produce identical outputs; no other input
(time, randomness) influences the result. -/
theorem generate_box_deterministic (l1 l2 : String → Nat) (p q : Playlist)
    (hname : p.name = q.name) (hlen : l1 p.name = l2 q.name) :
    generate_box l1 p = generate_box l2 q := by
  simp only [generate_box]
  rw [hname] at hlen
  rw [hname, hlen]

/-- Witness for C8 at a concrete name and measure. -/
theorem generate_box_deterministic_witness :
    generate_box (fun _ => 7) ⟨"T", []⟩ = generate_box (fun _ => 7) ⟨"T", []⟩ :=
  generate_box_deterministic (fun _ => 7) (fun _ => 7) ⟨"T", []⟩ ⟨"T", []⟩ rfl rfl

/-- C7 counterexample: on the front card the title line is drawn at
y = 830 and the artists line at y = 166, but 5/6 of the 1000-pixel canvas
height is not 830 (6·830 ≠ 5·1000) and 1/6 of it is not 166 (6·166 ≠ 1000):
the code anchors at multiples of CARD_W // 6, not at the exact fractions. -/
theorem front_anchor_fraction_counterexample :
    ((front_image sampleTrack).draws.getD 2 default).text = sampleTrack.name ∧
    ((front_image sampleTrack).draws.getD 2 default).pos.2 = 830 ∧
    6 * (830 : Int) ≠ 5 * ((CARD_W : Nat) : Int) ∧
    ((front_image sampleTrack).draws.getD 1 default).text = sampleTrack.artists ∧
    ((front_image sampleTrack).draws.getD 1 default).pos.2 = 166 ∧
    6 * (166 : Int) ≠ ((CARD_W : Nat) : Int) := by
  decide

/-- C7 (amended): every front card draws exactly three lines, all
horizontally centered at x = CARD_W/2 = 500 with anchor "mm" (the position
is the geometric center of the text's bounding box, not its baseline):
the artists at y = CARD_W // 6 = 166, the year at y = CARD_W/2 = 500 in
the large font, and the title at y = 5·(CARD_W // 6) = 830 in the body
font — i.e. at approximately (but not exactly) 1/6, 1/2 and 5/6 of the
canvas height. -/
theorem front_image_layout (t : Track) :
    (front_image t).canvas = CARD_W ∧ (front_image t).bg = BG ∧
    (front_image t).draws = [
      { pos := (500, 500), text := t.year, font := FontKind.large, fill := FG,
                           anchor := "mm", align := "center" },
      { pos := (500, 166), text := t.artists, font := FontKind.body, fill := FG,
                           anchor := "mm", align := "center" },
      { pos := (500, 830), text := t.name, font := FontKind.body, fill := FG,
                           anchor := "mm", align := "center" }] ∧
    (500 : Int) = ((CARD_W / 2 : Nat) : Int) ∧
    (166 : Int) = ((CARD_W / 6 : Nat) : Int) ∧
    (830 : Int) = ((5 * (CARD_W / 6) : Nat) : Int) :=
  ⟨rfl, rfl, rfl, rfl, rfl, rfl⟩

/-- C2 counterexample: with a pre-existing fronts/ directory (and no
backs/), the one-track run writes the back image before failing on the
fronts directory creation, so it does not fail before any image is
written. -/
theorem cards_fronts_preexist_counterexample :
    (generate_cards (fun _ _ => 0) false true samplePlaylistOne).1.length = 1 ∧
    (generate_cards (fun _ _ => 0) false true samplePlaylistOne).1
      = [⟨"backs/back_00000.png", CardContent.back (back_image sampleTrack)⟩] ∧
    (generate_cards (fun _ _ => 0) false true samplePlaylistOne).2.2
      = some CardsError.frontsExist := by
  decide

/-- C2 (amended): when fronts/ pre-exists the run fails (at fronts
creation) and never writes a front image — though when backs/ did not
pre-exist it has already written all len(tracks) back images; when backs/
pre-exists the run fails before writing anything.  generate_cards thus
never writes into a pre-existing fronts or backs directory. -/
theorem generate_cards_collision (w : FontKind → String → Nat) (bp fp : Bool) (p : Playlist) :
    ((generate_cards w bp true p).2.2).isSome = true ∧
    ((generate_cards w bp true p).1.all fun fw => fw.content.isBack) = true ∧
    (generate_cards w false true p).1.length = p.tracks.length ∧
    generate_cards w true fp p = ([], [], some CardsError.backsExist) := by
  refine ⟨?_, ?_, ?_, ?_⟩
  · cases bp <;> simp [generate_cards]
  · cases bp with
    | true => simp [generate_cards]
    | false =>
      simp [generate_cards, List.all_eq_true, List.mem_map]
      rintro fw i tr hmem rfl
      rfl
  · simp [generate_cards, List.enum_eq_enumFrom]
  · simp [generate_cards]

/-- C3: the overflow warning for each of the three front-card fields fires
iff that string's rendered bounding-box width is at least
CARD_W - TEXT_MARGIN = 1000 - 100, identifying the field and its value;
the warning is non-fatal: all three texts are drawn in full regardless of
the measured widths, and the files written and the error outcome of
generate_cards do not depend on the width measure at all. -/
theorem overflow_warning_iff (w w2 : FontKind → String → Nat) (t : Track) (bp fp : Bool)
    (p : Playlist) :
    (("year", t.year) ∈ front_warnings w t ↔ CARD_W - TEXT_MARGIN ≤ w FontKind.large t.year) ∧
    (("artists", t.artists) ∈ front_warnings w t ↔
      CARD_W - TEXT_MARGIN ≤ w FontKind.body t.artists) ∧
    (("name", t.name) ∈ front_warnings w t ↔ CARD_W - TEXT_MARGIN ≤ w FontKind.body t.name) ∧
    CARD_W = 1000 ∧ TEXT_MARGIN = 100 ∧
    (front_image t).draws.length = 3 ∧
    ((front_image t).draws.map fun d => d.text) = [t.year, t.artists, t.name] ∧
    (generate_cards w bp fp p).1 = (generate_cards w2 bp fp p).1 ∧
    (generate_cards w bp fp p).2.2 = (generate_cards w2 bp fp p).2.2 := by
  refine ⟨?_, ?_, ?_, rfl, rfl, rfl, rfl, ?_, ?_⟩
  · simp [front_warnings, mem_ite_singleton]
  · simp [front_warnings, mem_ite_singleton]
  · simp [front_warnings, mem_ite_singleton]
  · cases bp <;> cases fp <;> simp [generate_cards]
  · cases bp <;> cases fp <;> simp [generate_cards]

/-- C6: generate_box writes the single file box.png on the CARD_W canvas,
uses the step S = int(1.5 × FONT_SIZE) = 48, and its draw calls are exactly
the placements of the playlist name at (x + y, y) for y ranging over
range(-CARD_W, 2·CARD_W, 48) and x over range(-CARD_W, 2·CARD_W, L + 48)
with L = lenOf name (the rendered width of the name in the body font,
rounded up): i.e. y and x each run from -CARD_W up to but not beyond
2·CARD_W in their respective steps. -/
theorem generate_box_tiling (lenOf : String → Nat) (p : Playlist) (d : TextDraw) :
    (generate_box lenOf p).file = "box.png" ∧
    (generate_box lenOf p).canvas = CARD_W ∧
    FONT_SIZE * 3 / 2 = 48 ∧
    (d ∈ (generate_box lenOf p).draws ↔
      ∃ y x : Int,
        (-(CARD_W : Int) ≤ y ∧ y < (CARD_W : Int) * 2 ∧ (48 : Int) ∣ (y + CARD_W)) ∧
        (-(CARD_W : Int) ≤ x ∧ x < (CARD_W : Int) * 2 ∧
          ((lenOf p.name : Int) + 48) ∣ (x + CARD_W)) ∧
        d = { pos := (x + y, y), text := p.name, font := FontKind.body, fill := FG,
              anchor := "la", align := "left" }) := by
  refine ⟨rfl, rfl, rfl, ?_⟩
  have hz : ((FONT_SIZE * 3 / 2 : Nat) : Int) = 48 := rfl
  have hsx : (0 : Int) < (lenOf p.name : Int) + 48 := by omega
  simp only [generate_box, hz, List.mem_flatMap, List.mem_map]
  constructor
  · rintro ⟨y, hy, x, hx, rfl⟩
    rw [pyRange_mem _ _ _ _ (by norm_num)] at hy
    rw [pyRange_mem _ _ _ _ hsx] at hx
    refine ⟨y, x, ⟨hy.1, hy.2.1, ?_⟩, ⟨hx.1, hx.2.1, ?_⟩, rfl⟩
    · have he : y - (-(CARD_W : Int)) = y + CARD_W := by ring
      rw [← he]
      exact hy.2.2
    · have he : x - (-(CARD_W : Int)) = x + CARD_W := by ring
      rw [← he]
      exact hx.2.2
  · rintro ⟨y, x, ⟨hy1, hy2, hy3⟩, ⟨hx1, hx2, hx3⟩, rfl⟩
    refine ⟨y, ?_, x, ?_, rfl⟩
    · rw [pyRange_mem _ _ _ _ (by norm_num)]
      refine ⟨hy1, hy2, ?_⟩
      have he : y - (-(CARD_W : Int)) = y + CARD_W := by ring
      rw [he]
      exact hy3
    · rw [pyRange_mem _ _ _ _ hsx]
      refine ⟨hx1, hx2, ?_⟩
      have he : x - (-(CARD_W : Int)) = x + CARD_W := by ring
      rw [he]
      exact hx3

/-- C5: with no pre-existing output subdirectories, generate_cards succeeds
and writes exactly 2·len(tracks) files: len(tracks) back images followed by
len(tracks) front images, the i-th named backs/back_{i:05d}.png and
fronts/front_{i:05d}.png with zero-padded 5-digit indices starting at 0,
rendered from tracks[i]. -/
theorem generate_cards_indexed (w : FontKind → String → Nat) (p : Playlist) (i : Nat)
    (hi : i < p.tracks.length) (hi5 : i < 100000) :
    (generate_cards w false false p).1.length = 2 * p.tracks.length ∧
    (generate_cards w false false p).2.2 = none ∧
    (generate_cards w false false p).1[i]?
      = some ⟨"backs/back_" ++ pad5 i ++ ".png", CardContent.back (back_image p.tracks[i])⟩ ∧
    (generate_cards w false false p).1[p.tracks.length + i]?
      = some ⟨"fronts/front_" ++ pad5 i ++ ".png",
              CardContent.front (front_image p.tracks[i])⟩ ∧
    (pad5 i).length = 5 := by
  have hw : (generate_cards w false false p).1
      = (p.tracks.enum.map fun it =>
          ({ path := "backs/back_" ++ pad5 it.1 ++ ".png",
             content := CardContent.back (back_image it.2) } : FileWrite))
        ++ (p.tracks.enum.map fun it =>
          ({ path := "fronts/front_" ++ pad5 it.1 ++ ".png",
             content := CardContent.front (front_image it.2) } : FileWrite)) := rfl
  have hlb : (p.tracks.enum.map fun it =>
      ({ path := "backs/back_" ++ pad5 it.1 ++ ".png",
         content := CardContent.back (back_image it.2) } : FileWrite)).length
      = p.tracks.length := by
    simp [List.enum_eq_enumFrom]
  refine ⟨?_, rfl, ?_, ?_, pad5_length i hi5⟩
  · rw [hw]
    simp [List.enum_eq_enumFrom]
    omega
  · rw [hw, List.getElem?_append_left (by rw [hlb]; exact hi)]
    simp [List.enum_eq_enumFrom, List.getElem?_enumFrom, List.getElem?_eq_getElem hi]
  · rw [hw, List.getElem?_append_right (by rw [hlb]; omega)]
    rw [hlb]
    have hsub : p.tracks.length + i - p.tracks.length = i := by omega
    rw [hsub]
    simp [List.enum_eq_enumFrom, List.getElem?_enumFrom, List.getElem?_eq_getElem hi]

/-- Witness for C5 at the one-track playlist and index 0. -/
theorem generate_cards_indexed_witness :
    (generate_cards (fun _ _ => 0) false false samplePlaylistOne).1.length
        = 2 * samplePlaylistOne.tracks.length ∧
    (generate_cards (fun _ _ => 0) false false samplePlaylistOne).2.2 = none ∧
    (generate_cards (fun _ _ => 0) false false samplePlaylistOne).1[0]?
      = some ⟨"backs/back_" ++ pad5 0 ++ ".png", CardContent.back (back_image sampleTrack)⟩ ∧
    (generate_cards (fun _ _ => 0) false false samplePlaylistOne).1[samplePlaylistOne.tracks.length + 0]?
      = some ⟨"fronts/front_" ++ pad5 0 ++ ".png",
              CardContent.front (front_image sampleTrack)⟩ ∧
    (pad5 0).length = 5 :=
  generate_cards_indexed (fun _ _ => 0) samplePlaylistOne 0 (by decide) (by decide)

/-- Full analysis of generate_histogram on a playlist whose year fields are
all digit strings of one common positive length (as the data-model
invariant's 4-character numeral strings are): the string min/max then agree
with the numeric min/max, every step of the function succeeds, and the
resulting counts are the per-year multiplicities. -/
lemma generate_histogram_analysis (p : Playlist) (k : Nat) (hk : 0 < k)
    (hne : p.tracks ≠ [])
    (hdig : ∀ t ∈ p.tracks, allDigits t.year.data = true ∧ t.year.data.length = k) :
    ∃ mn mx counts2,
      pyMin (p.tracks.map fun t => t.year) = some mn ∧
      pyMax (p.tracks.map fun t => t.year) = some mx ∧
      pyIntOfString? mn = some ((digitsVal mn.data : Nat) : Int) ∧
      pyIntOfString? mx = some ((digitsVal mx.data : Nat) : Int) ∧
      mn ∈ p.tracks.map (fun t => t.year) ∧
      mx ∈ p.tracks.map (fun t => t.year) ∧
      (∀ y ∈ p.tracks.map (fun t => t.year),
        digitsVal mn.data ≤ digitsVal y.data ∧ digitsVal y.data ≤ digitsVal mx.data ∧
        pyIntOfString? y = some ((digitsVal y.data : Nat) : Int)) ∧
      generate_histogram p = some
        { title := p.name,
          labels := (List.range (((digitsVal mx.data : Nat) : Int)
              - ((digitsVal mn.data : Nat) : Int) + 1).toNat).map
            fun (i : Nat) => (i : Int) + ((digitsVal mn.data : Nat) : Int),
          counts := counts2 } ∧
      counts2.length = digitsVal mx.data - digitsVal mn.data + 1 ∧
      counts2.sum = p.tracks.length ∧
      ∀ j : Nat, counts2.getD j 0
        = p.tracks.countP fun t => digitsVal t.year.data == digitsVal mn.data + j := by
  obtain ⟨t0, ts, htr⟩ := List.exists_cons_of_ne_nil hne
  have hyears : p.tracks.map (fun t => t.year) = t0.year :: ts.map (fun t => t.year) := by
    rw [htr, List.map_cons]
  have hallY : ∀ y ∈ t0.year :: ts.map (fun t => t.year),
      allDigits y.data = true ∧ y.data.length = k := by
    intro y hy
    rw [← hyears] at hy
    obtain ⟨t, ht, rfl⟩ := List.mem_map.mp hy
    exact hdig t ht
  obtain ⟨mn, hmn, hmnMem, hmnDig, hmnLen, hmnMin⟩ :=
    pyMin_spec k t0.year (ts.map fun t => t.year) hallY
  obtain ⟨mx, hmx, hmxMem, hmxDig, hmxLen, hmxMax⟩ :=
    pyMax_spec k t0.year (ts.map fun t => t.year) hallY
  have hmnne : mn.data ≠ [] := by
    intro he
    rw [he] at hmnLen
    simp at hmnLen
    omega
  have hmxne : mx.data ≠ [] := by
    intro he
    rw [he] at hmxLen
    simp at hmxLen
    omega
  have hpa := pyInt_digits mn hmnDig hmnne
  have hpb := pyInt_digits mx hmxDig hmxne
  have hparse : ∀ y ∈ t0.year :: ts.map (fun t => t.year),
      pyIntOfString? y = some ((digitsVal y.data : Nat) : Int) := by
    intro y hy
    obtain ⟨hyd, hylen⟩ := hallY y hy
    have hyne : y.data ≠ [] := by
      intro he
      rw [he] at hylen
      simp at hylen
      omega
    exact pyInt_digits y hyd hyne
  have hAB : digitsVal mn.data ≤ digitsVal mx.data := hmnMin mx hmxMem
  have hys : ∀ y ∈ t0.year :: ts.map (fun t => t.year), ∃ v : Int,
      pyIntOfString? y = some v ∧ 0 ≤ v - ((digitsVal mn.data : Nat) : Int) ∧
      v - ((digitsVal mn.data : Nat) : Int)
        < ((List.replicate (((digitsVal mx.data : Nat) : Int)
            - ((digitsVal mn.data : Nat) : Int) + 1).toNat (0 : Nat)).length : Int) := by
    intro y hy
    refine ⟨((digitsVal y.data : Nat) : Int), hparse y hy, ?_, ?_⟩
    · have h1 := hmnMin y hy
      omega
    · have h1 := hmnMin y hy
      have h2 := hmxMax y hy
      rw [List.length_replicate]
      omega
  obtain ⟨counts2, hfold, hlen2, hsum2, hpt2⟩ :=
    hist_fold_spec ((digitsVal mn.data : Nat) : Int) (t0.year :: ts.map fun t => t.year)
      (List.replicate (((digitsVal mx.data : Nat) : Int)
        - ((digitsVal mn.data : Nat) : Int) + 1).toNat 0) hys
  refine ⟨mn, mx, counts2, by rw [hyears]; exact hmn, by rw [hyears]; exact hmx, hpa, hpb,
    by rw [hyears]; exact hmnMem, by rw [hyears]; exact hmxMem, ?_, ?_, ?_, ?_, ?_⟩
  · intro y hy
    rw [hyears] at hy
    exact ⟨hmnMin y hy, hmxMax y hy, hparse y hy⟩
  · simp only [generate_histogram]
    rw [hyears, hmn, Option.some_bind, hpa, Option.some_bind, hmx, Option.some_bind, hpb,
      Option.some_bind, hfold, Option.map_some']
  · rw [hlen2, List.length_replicate]
    omega
  · rw [hsum2, ← hyears, List.length_map]
    have hz : (List.replicate (((digitsVal mx.data : Nat) : Int)
        - ((digitsVal mn.data : Nat) : Int) + 1).toNat (0 : Nat)).sum = 0 := by
      simp
    rw [hz]
    omega
  · intro j
    have hj := hpt2 j
    rw [listGetD_replicate_zero] at hj
    rw [hj, Nat.zero_add, ← hyears, List.countP_map]
    apply List.countP_congr
    intro t ht
    have hp := hparse t.year (by rw [← hyears]; exact List.mem_map_of_mem _ ht)
    simp only [Function.comp, hp, beq_iff_eq, Option.some.injEq]
    constructor
    · intro he
      have : digitsVal t.year.data = digitsVal mn.data + j := by omega
      exact this
    · intro he
      have : digitsVal t.year.data = digitsVal mn.data + j := by omega
      omega

/-- C1 counterexample: in lexMismatchPlaylist both year fields parse as
integers (99 and 100) and the track list is nonempty, yet
generate_histogram raises instead of building maxYear - minYear + 1 = 2
bins: min/max are taken over the year strings, so a = int("100") = 100 and
b = int("99") = 99, the counts list is empty, and the first increment
indexes out of range. -/
theorem histogram_parse_only_counterexample :
    (∀ t ∈ lexMismatchPlaylist.tracks, (pyIntOfString? t.year).isSome = true) ∧
    lexMismatchPlaylist.tracks ≠ [] ∧
    pyIntOfString? ("99") = some 99 ∧ pyIntOfString? ("100") = some 100 ∧
    generate_histogram lexMismatchPlaylist = none := by
  decide

/-- C1 (amended): for every playlist with at least one track whose year
fields are all decimal digit strings of one common positive length — as the
data model's 4-character numeral year strings are — generate_histogram
succeeds and builds exactly maxYear - minYear + 1 bins labeled
minYear..maxYear inclusive, bin j holds the number of tracks whose year
parses to minYear + j (each track increments the bin at year - minYear),
and the counts sum to len(tracks).  (For year fields that merely parse as
integers the claim fails, because min/max are taken over the strings:
see the counterexample.) -/
theorem generate_histogram_correct (p : Playlist) (k : Nat) (hk : 0 < k)
    (hne : p.tracks ≠ [])
    (hdig : ∀ t ∈ p.tracks, allDigits t.year.data = true ∧ t.year.data.length = k) :
    ∃ h minV maxV,
      generate_histogram p = some h ∧
      h.title = p.name ∧
      minV ∈ p.tracks.map (fun t => digitsVal t.year.data) ∧
      maxV ∈ p.tracks.map (fun t => digitsVal t.year.data) ∧
      (∀ v ∈ p.tracks.map (fun t => digitsVal t.year.data), minV ≤ v ∧ v ≤ maxV) ∧
      h.counts.length = maxV - minV + 1 ∧
      h.labels = (List.range (maxV - minV + 1)).map (fun j => ((minV + j : Nat) : Int)) ∧
      (∀ j : Nat, h.counts.getD j 0
        = p.tracks.countP fun t => digitsVal t.year.data == minV + j) ∧
      h.counts.sum = p.tracks.length := by
  obtain ⟨mn, mx, counts2, hmn, hmx, hpa, hpb, hmnMem, hmxMem, hbounds, hgh, hlen, hsum, hpt⟩ :=
    generate_histogram_analysis p k hk hne hdig
  have hAB : digitsVal mn.data ≤ digitsVal mx.data := (hbounds mx hmxMem).1
  refine ⟨_, digitsVal mn.data, digitsVal mx.data, hgh, rfl, ?_, ?_, ?_, hlen, ?_, hpt, hsum⟩
  · obtain ⟨t, ht, hty⟩ := List.mem_map.mp hmnMem
    exact List.mem_map.mpr ⟨t, ht, by rw [hty]⟩
  · obtain ⟨t, ht, hty⟩ := List.mem_map.mp hmxMem
    exact List.mem_map.mpr ⟨t, ht, by rw [hty]⟩
  · intro v hv
    obtain ⟨t, ht, rfl⟩ := List.mem_map.mp hv
    have hb := hbounds t.year (List.mem_map_of_mem _ ht)
    exact ⟨hb.1, hb.2.1⟩
  · show (List.range (((digitsVal mx.data : Nat) : Int)
        - ((digitsVal mn.data : Nat) : Int) + 1).toNat).map
          (fun (i : Nat) => (i : Int) + ((digitsVal mn.data : Nat) : Int))
      = (List.range (digitsVal mx.data - digitsVal mn.data + 1)).map
          fun j => ((digitsVal mn.data + j : Nat) : Int)
    have hsize : (((digitsVal mx.data : Nat) : Int)
        - ((digitsVal mn.data : Nat) : Int) + 1).toNat
        = digitsVal mx.data - digitsVal mn.data + 1 := by omega
    rw [hsize]
    apply List.map_congr_left
    intro j hj
    push_cast
    ring

/-- Witness for C1 (amended) at the spec's scenario playlist (years 1999,
2001, 1999; all 4-character digit strings). -/
theorem generate_histogram_correct_witness :
    (0 : Nat) < 4 ∧ scenarioPlaylist.tracks ≠ [] ∧
    (∀ t ∈ scenarioPlaylist.tracks, allDigits t.year.data = true ∧ t.year.data.length = 4) ∧
    (∃ h minV maxV,
      generate_histogram scenarioPlaylist = some h ∧
      h.title = scenarioPlaylist.name ∧
      minV ∈ scenarioPlaylist.tracks.map (fun t => digitsVal t.year.data) ∧
      maxV ∈ scenarioPlaylist.tracks.map (fun t => digitsVal t.year.data) ∧
      (∀ v ∈ scenarioPlaylist.tracks.map (fun t => digitsVal t.year.data),
        minV ≤ v ∧ v ≤ maxV) ∧
      h.counts.length = maxV - minV + 1 ∧
      h.labels = (List.range (maxV - minV + 1)).map (fun j => ((minV + j : Nat) : Int)) ∧
      (∀ j : Nat, h.counts.getD j 0
        = scenarioPlaylist.tracks.countP fun t => digitsVal t.year.data == minV + j) ∧
      h.counts.sum = scenarioPlaylist.tracks.length) :=
  ⟨by decide, by decide, by decide,
    generate_histogram_correct scenarioPlaylist 4 (by decide) (by decide) (by decide)⟩

/-- C10 counterexample: in negIndexPlaylist every year parses as an integer
(30, 4 and 50), but the string minimum of the years is "30", so the bin
index computed for the track with year "4" is int("4") - 30 = -26 < 0 and
generate_histogram aborts with an out-of-range list access. -/
theorem histogram_bin_index_counterexample :
    (∀ t ∈ negIndexPlaylist.tracks, (pyIntOfString? t.year).isSome = true) ∧
    pyMin (negIndexPlaylist.tracks.map fun t => t.year) = some ("30") ∧
    pyMax (negIndexPlaylist.tracks.map fun t => t.year) = some ("50") ∧
    pyIntOfString? ("4") = some 4 ∧
    ¬ (0 ≤ (4 : Int) - 30) ∧
    generate_histogram negIndexPlaylist = none := by
  decide

/-- C10 (amended): when the year fields are all digit strings of one common
positive length, the bin index int(year) - a computed by generate_histogram
(with a = int(min(years)), b = int(max(years))) lies within [0, b - a] for
every track, so no increment accesses the counts list out of range and the
whole run succeeds. -/
theorem hist_index_in_bounds (p : Playlist) (k : Nat) (hk : 0 < k)
    (hne : p.tracks ≠ [])
    (hdig : ∀ t ∈ p.tracks, allDigits t.year.data = true ∧ t.year.data.length = k) :
    ∃ mn mx a b,
      pyMin (p.tracks.map fun t => t.year) = some mn ∧
      pyMax (p.tracks.map fun t => t.year) = some mx ∧
      pyIntOfString? mn = some a ∧
      pyIntOfString? mx = some b ∧
      (∀ t ∈ p.tracks, ∃ v : Int, pyIntOfString? t.year = some v ∧
        0 ≤ v - a ∧ v - a ≤ b - a) ∧
      (generate_histogram p).isSome = true := by
  obtain ⟨mn, mx, counts2, hmn, hmx, hpa, hpb, hmnMem, hmxMem, hbounds, hgh, hlen, hsum, hpt⟩ :=
    generate_histogram_analysis p k hk hne hdig
  refine ⟨mn, mx, _, _, hmn, hmx, hpa, hpb, ?_, by rw [hgh]; rfl⟩
  intro t ht
  obtain ⟨h1, h2, h3⟩ := hbounds t.year (List.mem_map_of_mem _ ht)
  exact ⟨_, h3, by omega, by omega⟩

/-- Witness for C10 (amended) at the one-track playlist (year "1999"). -/
theorem hist_index_in_bounds_witness :
    (0 : Nat) < 4 ∧ samplePlaylistOne.tracks ≠ [] ∧
    (∀ t ∈ samplePlaylistOne.tracks, allDigits t.year.data = true ∧ t.year.data.length = 4) ∧
    (∃ mn mx a b,
      pyMin (samplePlaylistOne.tracks.map fun t => t.year) = some mn ∧
      pyMax (samplePlaylistOne.tracks.map fun t => t.year) = some mx ∧
      pyIntOfString? mn = some a ∧
      pyIntOfString? mx = some b ∧
      (∀ t ∈ samplePlaylistOne.tracks, ∃ v : Int, pyIntOfString? t.year = some v ∧
        0 ≤ v - a ∧ v - a ≤ b - a) ∧
      (generate_histogram samplePlaylistOne).isSome = true) :=
  ⟨by decide, by decide, by decide,
    hist_index_in_bounds samplePlaylistOne 4 (by decide) (by decide) (by decide)⟩
